import Mathlib

/-!
Verification development for the clip-ingestion service ("bucket").

The service is a TypeScript/Hono application.  This file gives a shallow
embedding of the pipeline pieces the specification talks about:

* `src/schemas.ts`    — zod payload validation (`clipInputSchema`,
  `uploadPayloadSchema`);
* `src/embeddings.ts` — `embedDescriptions`;
* `src/db.ts`         — `persistClips`, `getClipsByOriginId`,
  `deleteClipsByOriginId`, `getAllClips`;
* `src/upload.ts`     — `deleteObjectsByOriginId` (prefix-paginated OSS
  purge) and single-key `deleteObject`;
* `src/video.ts`      — `downloadOriginVideo`, `writeUploadedAsset`,
  `stageUploadedVideo`, `cleanupTempDir`;
* `src/index.ts`      — `processClip`, `discardUploadedObjects` and the
  `POST /api/clips` handler (JSON-body branch).

Side effects are made explicit: the handler is a function from an
environment (oracles for every external outcome: fetch success, stream
success, embedding-service payload, per-clip trim/upload outcomes,
per-row insert outcomes) and a start state to a final state.  The state
records the live temporary directories, the object-store keys, the
database rows, the sequence of database snapshots the request passed
through, and a trace of I/O events.  JavaScript numbers that the schema
has validated to be integers are modelled as `Int`; embedding-vector
entries (whose values never matter, only their count and dimension) are
modelled as `Rat`.
-/

namespace Bucket

/-! ## Path and string helpers (Node `path` posix semantics) -/

/-- ASCII whitespace, the relevant subset of what JavaScript
`String.prototype.trim` removes. -/
def isWsChar (c : Char) : Bool :=
  c == ' ' || c == '\t' || c == '\n' || c == '\r'

/-- `true` iff the JavaScript expression `s.trim()` is falsy, i.e. the
string is empty or consists of whitespace only. -/
def trimIsEmpty (s : String) : Bool :=
  s.toList.all isWsChar

/-- Node `path.posix.basename` (without the `ext` argument): drop
trailing slashes, then keep the last slash-free run.  `basename "/" = ""`,
`basename ".." = ".."`, `basename "a/b/c" = "c"`. -/
def basename (s : String) : String :=
  String.mk (((s.toList.reverse.dropWhile (· == '/')).takeWhile (· != '/')).reverse)

/-- Node `path.posix.join dir seg` for a single extra path component
`seg` that contains no `'/'`, on a directory represented as its list of
path segments.  Join normalises `"."` and `".."` components, so `".."`
steps out of `dir`. -/
def joinSegment (dir : List String) (seg : String) : List String :=
  if seg = "" ∨ seg = "." then dir
  else if seg = ".." then dir.dropLast
  else dir ++ [seg]

/-- `p` is a direct child of directory `dir` (both as segment lists). -/
def isDirectChild (dir p : List String) : Bool :=
  p.dropLast == dir && p.length == dir.length + 1

/-! ## `src/schemas.ts` — zod payload validation

`clipInputSchema` is
`z.object({ start_frame: z.number().int().nonnegative(),
            end_frame: z.number().int().positive(),
            description: z.string().min(1).max(512) })
  .refine(end_frame > start_frame)`;
`uploadPayloadSchema` additionally checks `origin_id` (min length 1),
optional `origin_url`, `fps` (int, positive, `≤ 240`, default
`config.video.defaultFps`) and `clips` (length `1 ..= config.embedding.maxBatch`).
-/

structure RawClip where
  start_frame : Int
  end_frame : Int
  description : String
deriving DecidableEq, Repr

structure RawPayload where
  origin_id : String
  origin_url : Option String
  fps : Option Int
  clips : List RawClip
deriving DecidableEq, Repr

/-- Static configuration (`src/config.ts`), restricted to the fields the
pipeline logic reads. -/
structure Config where
  defaultFps : Int
  maxBatch : Nat
  dims : Nat
  maxDownloadSizeMB : Nat
deriving Repr

/-- The per-clip validation of `clipInputSchema`. -/
def clipInputCheck (c : RawClip) : Bool :=
  (0 ≤ c.start_frame) && (1 ≤ c.end_frame)
    && (1 ≤ c.description.length) && (c.description.length ≤ 512)
    && (c.start_frame < c.end_frame)

/-- A payload accepted by `uploadPayloadSchema` (`fps` defaulted). -/
structure UploadPayload where
  origin_id : String
  origin_url : Option String
  fps : Int
  clips : List RawClip
deriving DecidableEq, Repr

/-- `uploadPayloadSchema.parse`: validation plus the `fps` default. -/
def parseUploadPayload (cfg : Config) (p : RawPayload) : Except Unit UploadPayload :=
  if (1 ≤ p.origin_id.length)
      && (1 ≤ p.clips.length) && (p.clips.length ≤ cfg.maxBatch)
      && p.clips.all clipInputCheck
      && (match p.fps with
          | none => true
          | some f => (1 ≤ f) && (f ≤ 240)) then
    .ok { origin_id := p.origin_id, origin_url := p.origin_url,
          fps := p.fps.getD cfg.defaultFps, clips := p.clips }
  else
    .error ()

/-! ## `src/embeddings.ts` — `embedDescriptions`

The remote call is abstracted as the parsed response payload: `none`
when the HTTP request fails or the response carries no embeddings array,
`some ess` when the service answered with the vectors `ess`.  The code
short-circuits on an empty input, rejects oversize batches before the
request, and after the request rejects a count mismatch and any vector
whose length differs from the configured dimensionality. -/

/-- The final `embeddings.map(...)` of `embedDescriptions`: pass each
vector through, throwing on the first one whose length is not the
configured dimensionality. -/
def checkEmbeddings (dims : Nat) : List (List Rat) → Except String (List (List Rat))
  | [] => .ok []
  | e :: es =>
    if e.length ≠ dims then .error "Invalid embedding response"
    else
      match checkEmbeddings dims es with
      | .ok rest => .ok (e :: rest)
      | .error err => .error err

def embedDescriptions (dims maxBatch : Nat) (descriptions : List String)
    (resp : Option (List (List Rat))) : Except String (List (List Rat)) :=
  if descriptions.length = 0 then
    .ok []
  else if maxBatch < descriptions.length then
    .error "Cannot embed more than maxBatch descriptions per batch"
  else
    match resp with
    | none => .error "Embedding response missing embeddings array"
    | some embeddings =>
      if embeddings.length ≠ descriptions.length then
        .error "Embedding response length mismatch"
      else
        checkEmbeddings dims embeddings

/-! ## `src/index.ts` `processClip` — animation slice bounds

In the animation branch the code computes
`lastFrame = Math.max(clip.start_frame, clip.end_frame - 1)` and calls
`sliceAnimationBin(animationBuffer, clip.start_frame, lastFrame)`. -/

def animationLastFrame (start_frame end_frame : Int) : Int :=
  max start_frame (end_frame - 1)

/-! ## `src/db.ts` — relational store

A table is a list of rows.  `isNew` is a verification ghost flag, not a
column: it marks rows inserted by the request under scrutiny, so that
"old rows" (present before the request) and "new rows" (inserted by it)
can be told apart in invariants.  `createdAt` stands for the
`created_at` timestamp used by `getAllClips`' `ORDER BY`. -/

structure Row where
  id : Nat
  originId : String
  startFrame : Int
  endFrame : Int
  description : String
  videoUrl : String
  animationUrl : Option String
  embedding : List Rat
  createdAt : Nat
  isNew : Bool
deriving DecidableEq, Repr

/-- What the handler hands to `persistClips` (the fields of db.ts'
`PersistableClip`). -/
structure PersistableClip where
  originId : String
  startFrame : Int
  endFrame : Int
  description : String
  videoUrl : String
  animationUrl : Option String
  embedding : List Rat
deriving DecidableEq, Repr

/-- The row produced by one `tx.insert(clip).values(...)` call
(store-assigned `id`, `created_at` defaulted to the transaction time). -/
def insertedRow (id now : Nat) (c : PersistableClip) : Row :=
  { id := id, originId := c.originId, startFrame := c.startFrame,
    endFrame := c.endFrame, description := c.description,
    videoUrl := c.videoUrl, animationUrl := c.animationUrl,
    embedding := c.embedding, createdAt := now, isNew := true }

/-- The body of db.ts' `db.transaction`: insert the clips one by one,
accumulating the returned rows; `insertOk` is the oracle for whether an
individual `INSERT` succeeds (e.g. a dimension mismatch rejected by the
`vector(d)` column makes it fail).  On the first failure the whole body
throws. -/
def txInsertLoop (tbl : List Row) (clips : List PersistableClip)
    (insertOk : PersistableClip → Bool) (nextId now : Nat) :
    Except Unit (List Row × List Row) :=
  match clips with
  | [] => .ok (tbl, [])
  | c :: cs =>
    if insertOk c then
      match txInsertLoop (tbl ++ [insertedRow nextId now c]) cs insertOk (nextId + 1) now with
      | .ok (tbl', rows) => .ok (tbl', insertedRow nextId now c :: rows)
      | .error e => .error e
    else .error ()

/-- db.ts `persistClips`: empty input returns `[]` without opening a
transaction; otherwise the insert loop runs inside one transaction, so a
thrown insert rolls the table back to its pre-transaction contents.
Returns (result, table after the call). -/
def persistClips (tbl : List Row) (clips : List PersistableClip)
    (insertOk : PersistableClip → Bool) (nextId now : Nat) :
    Except Unit (List Row) × List Row :=
  if clips.length = 0 then (.ok [], tbl)
  else
    match txInsertLoop tbl clips insertOk nextId now with
    | .ok (tbl', rows) => (.ok rows, tbl')
    | .error e => (.error e, tbl)

/-- db.ts `getClipsByOriginId`: `SELECT * FROM clip WHERE origin_id = $1`. -/
def getClipsByOriginId (tbl : List Row) (originId : String) : List Row :=
  tbl.filter (fun r => r.originId == originId)

/-- db.ts `deleteClipsByOriginId`: `DELETE FROM clip WHERE origin_id = $1`,
returning (deleted count, remaining table). -/
def deleteClipsByOriginId (tbl : List Row) (originId : String) :
    Nat × List Row :=
  ((tbl.filter (fun r => r.originId == originId)).length,
   tbl.filter (fun r => r.originId != originId))

/-- db.ts `getAllClips`: total count, then
`SELECT * ... ORDER BY created_at DESC LIMIT limit OFFSET offset`. -/
def getAllClips (tbl : List Row) (limit offset : Nat) :
    List Row × Nat :=
  let total := tbl.length
  let sorted := tbl.insertionSort (fun a b => b.createdAt ≤ a.createdAt)
  (((sorted.drop offset).take limit), total)

/-! ## `src/upload.ts` — object store gateway

The bucket contents are a list of object keys.  `deleteObjectsByOriginId`
enumerates the keys under the two per-origin prefixes in pages of at
most 1000 (the `store.list`/`deleteMulti` loop) and deletes them. -/

/-- Split a list into chunks of at most `n` elements; models the
marker-paginated `store.list` pages (page size 1000 in the source).
Structural recursion on a fuel argument bounded by the list length; for
`n > 0` the fuel never runs out. -/
def chunksOfAux (n : Nat) : Nat → List α → List (List α)
  | 0, _ => []
  | _, [] => []
  | fuel + 1, x :: xs => (x :: xs).take n :: chunksOfAux n fuel ((x :: xs).drop n)

def chunksOf (n : Nat) (l : List α) : List (List α) :=
  chunksOfAux n l.length l

/-! ## Effects: events and request state

Every externally visible action of one `POST /api/clips` request is an
event.  The request state carries the live temporary directories, the
object-store keys, the database table, the sequence of committed
database states the request produced (`dbHist`, a verification ghost:
initial state plus one entry per committed mutation), and the event
trace. -/

inductive Ev where
  | embedCall
  | downloadEv (url : String)
  | mkdtempEv (dir : Nat)
  | ossList (pfx : String)
  | ossDeleteMulti (keys : List String)
  | dbGetByOrigin (originId : String)
  | dbDeleteByOrigin (originId : String)
  | trimEv (assetId : String)
  | sliceAnim (startFrame lastFrame : Int)
  | ossPut (key : String)
  | ossDelete (key : String)
  | dbInsert (originId : String)
  | rmTree (dir : Nat)
deriving DecidableEq, Repr

structure St where
  tmpDirs : List Nat
  oss : List String
  db : List Row
  dbHist : List (List Row)
  trace : List Ev
deriving DecidableEq, Repr

def addEvs (st : St) (evs : List Ev) : St :=
  { st with trace := st.trace ++ evs }

/-- Commit a new database state (records it in the ghost history). -/
def setDb (st : St) (d : List Row) : St :=
  { st with db := d, dbHist := st.dbHist ++ [d] }

/-- video.ts `cleanupTempDir`: `rm -rf` of the workspace directory. -/
def cleanupTempDir (st : St) (dir : Nat) : St :=
  { st with tmpDirs := st.tmpDirs.filter (fun d => d != dir),
            trace := st.trace ++ [Ev.rmTree dir] }

/-- upload.ts `deleteObjectsByOriginId`: for each of the two per-origin
prefixes, page through the keys (pages of ≤ 1000) and `deleteMulti`
each page.  Returns (deleted keys, events, remaining bucket keys).  The
two prefixes are disjoint, so listing both against the initial bucket
matches the sequential loop of the source. -/
def purgePrefixEvents (oss : List String) (pfx : String) : List Ev :=
  let pages := chunksOf 1000 (oss.filter (fun k => k.startsWith pfx))
  if pages = [] then [Ev.ossList pfx]
  else pages.flatMap (fun pg => [Ev.ossList pfx, Ev.ossDeleteMulti pg])

def deleteObjectsByOriginId (oss : List String) (originId : String) :
    List String × List Ev × List String :=
  let p1 := "clips/" ++ originId ++ "/"
  let p2 := "animations/" ++ originId ++ "/"
  (oss.filter (fun k => k.startsWith p1) ++ oss.filter (fun k => k.startsWith p2),
   purgePrefixEvents oss p1 ++ purgePrefixEvents oss p2,
   oss.filter (fun k => !(k.startsWith p1 || k.startsWith p2)))

/-! ## `src/index.ts` — per-clip processing and rollback -/

/-- The shape built by index.ts `processClip`. -/
structure ProcessedClip where
  originId : String
  startFrame : Int
  endFrame : Int
  description : String
  videoUrl : String
  videoObjectKey : String
  animationUrl : Option String
  animationObjectKey : Option String
  embedding : List Rat
deriving DecidableEq, Repr

/-- Outcome oracle for one clip task's external steps. -/
structure ClipOutcome where
  trimOk : Bool
  videoPutOk : Bool
  animPutOk : Bool
deriving DecidableEq, Repr

/-- What one clip task did: the object keys it successfully uploaded,
its event trace, and its result (`none` when the task threw).  Failed
tasks are not cancelled or rolled back individually, so their uploaded
keys stay in the bucket. -/
structure TaskRun where
  uploadedKeys : List String
  events : List Ev
  result : Option ProcessedClip
deriving DecidableEq, Repr

/-- The object URL `uploadObject` reports for a key. -/
def objectUrl (key : String) : String := "oss://" ++ key

/-- The `ProcessedClip` a successful task returns. -/
def mkProcessedClip (originId : String) (c : RawClip) (videoKey : String)
    (animKey : Option String) (embedding : List Rat) : ProcessedClip :=
  { originId := originId, startFrame := c.start_frame,
    endFrame := c.end_frame, description := c.description,
    videoUrl := objectUrl videoKey, videoObjectKey := videoKey,
    animationUrl := animKey.map objectUrl, animationObjectKey := animKey,
    embedding := embedding }

/-- index.ts `processClip`: trim → upload video → (slice → upload
animation when an animation buffer is present) → attach the embedding.
A step failure throws out of the task; earlier uploads stay. -/
def processClip (originId assetId : String) (c : RawClip)
    (embedding : List Rat) (hasAnim : Bool) (oc : ClipOutcome) : TaskRun :=
  if !oc.trimOk then
    { uploadedKeys := [], events := [Ev.trimEv assetId], result := none }
  else
    let videoKey := "clips/" ++ originId ++ "/" ++ assetId ++ ".mp4"
    let evs1 := [Ev.trimEv assetId, Ev.ossPut videoKey]
    if !oc.videoPutOk then
      { uploadedKeys := [], events := evs1, result := none }
    else if hasAnim then
      let lastFrame := animationLastFrame c.start_frame c.end_frame
      let animKey := "animations/" ++ originId ++ "/" ++ assetId ++ ".bin"
      let evs2 := evs1 ++ [Ev.sliceAnim c.start_frame lastFrame, Ev.ossPut animKey]
      if !oc.animPutOk then
        { uploadedKeys := [videoKey], events := evs2, result := none }
      else
        { uploadedKeys := [videoKey, animKey], events := evs2,
          result := some (mkProcessedClip originId c videoKey (some animKey) embedding) }
    else
      { uploadedKeys := [videoKey], events := evs1,
        result := some (mkProcessedClip originId c videoKey none embedding) }

/-- index.ts `discardUploadedObjects`: best-effort deletion of the video
and animation keys of the given processed clips.  Returns (remaining
bucket keys, delete events). -/
def discardUploadedObjects (clips : List ProcessedClip) (oss : List String) :
    List String × List Ev :=
  let objectKeys := clips.flatMap (fun c =>
    ([c.videoObjectKey] ++ c.animationObjectKey.toList).filter (fun k => k != ""))
  (oss.filter (fun k => !(objectKeys.contains k)), objectKeys.map Ev.ossDelete)

/-! ## The `POST /api/clips` handler (JSON-body branch)

All external outcomes are collected in an environment record.  The model
follows the source line by line; intra-`Promise.all` completion order is
schedule-dependent in the source, and the model lays each task's events
out in input order — every theorem below only uses facts that hold for
every schedule (all task events happen after the awaited purge completes
and before persistence starts). -/

structure Env where
  urlPathname : String
  fetchOk : Bool
  contentLength : Option Nat
  pipelineOk : Bool
  freshDir : Nat
  embedResp : Option (List (List Rat))
  getExistingOk : Bool
  ossPurgeOk : Bool
  rowDeleteOk : Bool
  assetId : Nat → String
  clipOutcome : Nat → ClipOutcome
  insertOk : PersistableClip → Bool
  nextId : Nat
  now : Nat

/-- video.ts `downloadOriginVideo` (lines 12-47): fetch with timeout; a
transport error or non-2xx status throws before `mkdtemp`; an oversize
`content-length` throws before `mkdtemp`; then `mkdtemp` creates the
workspace, and a streaming (`pipeline`) failure throws *after* the
directory exists, without removing it.  Returns
(result, temp directories, events). -/
def downloadOriginVideo (cfg : Config) (env : Env) (originUrl : String)
    (tmpDirs : List Nat) : Except Unit (Nat × String) × List Nat × List Ev :=
  if !env.fetchOk then (.error (), tmpDirs, [Ev.downloadEv originUrl])
  else
    let tooLarge := match env.contentLength with
      | none => false
      | some len => cfg.maxDownloadSizeMB * 1048576 < len
    if tooLarge then (.error (), tmpDirs, [Ev.downloadEv originUrl])
    else
      let fileName :=
        if basename env.urlPathname = "" then "origin.mp4" else basename env.urlPathname
      let tmp' := tmpDirs ++ [env.freshDir]
      let evs := [Ev.downloadEv originUrl, Ev.mkdtempEv env.freshDir]
      if env.pipelineOk then (.ok (env.freshDir, fileName), tmp', evs)
      else (.error (), tmp', evs)

/-- The fan-out (index.ts lines 363-389): one task per clip, paired with
its embedding by array index; a missing embedding at that index throws
inside the task. -/
def runClipTasks (env : Env) (originId : String) (clips : List RawClip)
    (embeddings : List (List Rat)) (hasAnim : Bool) : List TaskRun :=
  clips.enum.map (fun ic =>
    match embeddings[ic.1]? with
    | none => { uploadedKeys := [], events := [], result := none }
    | some emb => processClip originId (env.assetId ic.1) ic.2 emb hasAnim (env.clipOutcome ic.1))

/-- The `dbInsert` events of the inserts attempted inside the
`persistClips` transaction: all clips up to and including the first one
whose insert fails. -/
def insertAttemptEvents (clips : List PersistableClip)
    (insertOk : PersistableClip → Bool) : List Ev :=
  (clips.take (clips.findIdx (fun c => !insertOk c) + 1)).map (fun c => Ev.dbInsert c.originId)

/-- index.ts lines 357-416: the fan-out, persistence, rollback and
`finally` cleanup.  `processedClips` is initialised to `[]` and only
assigned when `Promise.all` resolves; when any task rejects, the catch
block sees the initial `[]` and the `processedClips.length > 0` guard
skips `discardUploadedObjects`. -/
def processAndPersistPhase (env : Env) (payload : UploadPayload) (st : St)
    (workDir : Nat) (embeddings : List (List Rat)) : Nat × St :=
  let runs := runClipTasks env payload.origin_id payload.clips embeddings false
  let st := { st with oss := st.oss ++ runs.flatMap (fun r => r.uploadedKeys),
                      trace := st.trace ++ runs.flatMap (fun r => r.events) }
  match runs.mapM (fun r => r.result) with
  | none =>
    (500, cleanupTempDir st workDir)
  | some processedClips =>
    let persistable : List PersistableClip := processedClips.map (fun pc =>
      { originId := pc.originId, startFrame := pc.startFrame,
        endFrame := pc.endFrame, description := pc.description,
        videoUrl := pc.videoUrl, animationUrl := pc.animationUrl,
        embedding := pc.embedding })
    let st := addEvs st (insertAttemptEvents persistable env.insertOk)
    match persistClips st.db persistable env.insertOk env.nextId env.now with
    | (.ok _, tbl') =>
      (200, cleanupTempDir (setDb st tbl') workDir)
    | (.error _, _) =>
      if processedClips.length > 0 then
        let d := discardUploadedObjects processedClips st.oss
        (500, cleanupTempDir (addEvs { st with oss := d.1 } d.2) workDir)
      else
        (500, cleanupTempDir st workDir)

/-- index.ts lines 325-355 followed by the processing phase: look up the
origin's existing rows; when some exist, purge the object store under
both prefixes and then delete the rows, all before any clip task is
created. -/
def cleanupOldRecordsPhase (env : Env) (payload : UploadPayload) (st : St)
    (workDir : Nat) (embeddings : List (List Rat)) : Nat × St :=
  let existing := getClipsByOriginId st.db payload.origin_id
  let st := addEvs st [Ev.dbGetByOrigin payload.origin_id]
  if !env.getExistingOk then (500, cleanupTempDir st workDir)
  else if existing.length > 0 then
    if !env.ossPurgeOk then
      (500, cleanupTempDir (addEvs st [Ev.ossList ("clips/" ++ payload.origin_id ++ "/")]) workDir)
    else
      let d := deleteObjectsByOriginId st.oss payload.origin_id
      let st := addEvs { st with oss := d.2.2 } d.2.1
      let st := addEvs st [Ev.dbDeleteByOrigin payload.origin_id]
      if !env.rowDeleteOk then (500, cleanupTempDir st workDir)
      else
        let st := setDb st (deleteClipsByOriginId st.db payload.origin_id).2
        processAndPersistPhase env payload st workDir embeddings
  else
    processAndPersistPhase env payload st workDir embeddings

/-- The `POST /api/clips` handler, JSON-body branch (index.ts lines
195-416): parse & validate; require `origin_url`; start the embeddings
request; acquire the video (download path); await the embeddings; purge
old records; fan out; persist; roll back & clean up as dictated by each
failure path.  Returns (HTTP status, final state).  Note the JSON branch
carries no uploaded animation file, and `uploadPayloadSchema`
(src/schemas.ts) declares no `anim_url` field, so zod's parse strips it
and the animation-download path is not taken. -/
def handleClipsJson (cfg : Config) (env : Env) (raw : RawPayload) (st : St) :
    Nat × St :=
  match parseUploadPayload cfg raw with
  | .error _ => (400, st)
  | .ok payload =>
    match payload.origin_url with
    | none => (400, st)
    | some originUrl =>
      let st := addEvs st [Ev.embedCall]
      let dl := downloadOriginVideo cfg env originUrl st.tmpDirs
      let st := addEvs { st with tmpDirs := dl.2.1 } dl.2.2
      match dl.1 with
      | .error _ => (502, st)
      | .ok wdfp =>
        let workDir := wdfp.1
        match embedDescriptions cfg.dims cfg.maxBatch
            (payload.clips.map (fun c => c.description)) env.embedResp with
        | .error _ => (502, cleanupTempDir st workDir)
        | .ok embeddings =>
          cleanupOldRecordsPhase env payload st workDir embeddings

/-! ## `src/video.ts` — staging uploaded assets (lines 88-129)

`writeUploadedAsset` derives the destination name from the
client-supplied `file.name`:
`fileName = file.name?.trim() ? path.basename(file.name) : fallbackName`,
`safeName = fileName || fallbackName`, and writes to
`path.join(tempDir, safeName)`. -/

/-- The destination file name `writeUploadedAsset` chooses. -/
def writeUploadedAssetName (name fallbackName : String) : String :=
  let fileName := if !trimIsEmpty name then basename name else fallbackName
  if fileName = "" then fallbackName else fileName

/-- The staged destination path (the `tempDir` directory as a segment
list, joined with the chosen name). -/
def stagedAssetPath (tempDir : List String) (name fallbackName : String) :
    List String :=
  joinSegment tempDir (writeUploadedAssetName name fallbackName)

/-- `stageUploadedVideo` uses fallback name `"origin.mp4"`,
`stageUploadedBinary` defaults to `"origin.bin"`. -/
def stageUploadedVideoPath (tempDir : List String) (name : String) : List String :=
  stagedAssetPath tempDir name "origin.mp4"

def stageUploadedBinaryPath (tempDir : List String) (name fallbackName : String) :
    List String :=
  stagedAssetPath tempDir name fallbackName

/-! ## `GET /api/clips` — paginated listing route -/

structure Pagination where
  total : Nat
  limit : Nat
  offset : Nat
  hasMore : Bool
deriving DecidableEq, Repr

structure ClipsListing where
  clips : List Row
  pagination : Pagination
deriving DecidableEq, Repr

/-- Modelled from the spec: the `GET /api/clips` route handler is not
among the provided source files — only its data-access callee
`getAllClips` (src/db.ts) and the repository README, which documents the
route, are.  Modelled from the spec sentence: paginated listing, `limit`
default 10 max 100, response
`{ clips, pagination: { total, limit, offset, hasMore } }`; the
`getAllClips` call itself is the source-based embedding above. -/
def getClipsRoute (tbl : List Row) (limitParam offsetParam : Option Nat) :
    ClipsListing :=
  let limit := min (limitParam.getD 10) 100
  let offset := offsetParam.getD 0
  let r := getAllClips tbl limit offset
  { clips := r.1,
    pagination := { total := r.2, limit := limit, offset := offset,
                    hasMore := offset + r.1.length < r.2 } }

/-! ## Auxiliary predicates and demo inputs used by the theorems -/

def exceptIsError {ε α : Type} : Except ε α → Bool
  | .error _ => true
  | .ok _ => false

/-- Shape invariant of a successful `embedDescriptions` result: one
vector per description, each of the configured dimension (vacuous on
errors). -/
def okShape (dims : Nat) (descriptions : List String) :
    Except String (List (List Rat)) → Bool
  | .error _ => true
  | .ok out => out.length == descriptions.length
      && out.all (fun v => v.length == dims)

def isOssDeleteEv : Ev → Bool
  | .ossDelete _ => true
  | _ => false

/-- The events of the §4.5-step-1 purge of pre-existing records. -/
def isPurgeEv : Ev → Bool
  | .ossList _ => true
  | .ossDeleteMulti _ => true
  | .dbDeleteByOrigin _ => true
  | _ => false

/-- Events of new-clip processing and new-row insertion. -/
def isProcOrInsertEv : Ev → Bool
  | .trimEv _ => true
  | .sliceAnim _ _ => true
  | .ossPut _ => true
  | .dbInsert _ => true
  | _ => false

/-- The rows a successful transaction of `persistClips` appends:
`insertedRow` for each clip, ids counting up from `nextId`. -/
def builtRows (nextId now : Nat) : List PersistableClip → List Row
  | [] => []
  | c :: cs => insertedRow nextId now c :: builtRows (nextId + 1) now cs

def cfgDemo : Config :=
  { defaultFps := 30, maxBatch := 10, dims := 2, maxDownloadSizeMB := 500 }

def stEmpty : St :=
  { tmpDirs := [], oss := [], db := [], dbHist := [[]], trace := [] }

def okOutcome : ClipOutcome := { trimOk := true, videoPutOk := true, animPutOk := true }

def rawDemo : RawPayload :=
  { origin_id := "orig", origin_url := some "http://h/v.mp4", fps := some 30,
    clips := [{ start_frame := 0, end_frame := 30, description := "a" },
              { start_frame := 30, end_frame := 60, description := "b" }] }

/-- Environment of a request in which every external step succeeds. -/
def envAllOk : Env :=
  { urlPathname := "/v.mp4", fetchOk := true, contentLength := none,
    pipelineOk := true, freshDir := 7,
    embedResp := some [[1, 2], [3, 4]], getExistingOk := true,
    ossPurgeOk := true, rowDeleteOk := true,
    assetId := fun i => "asset-" ++ toString i,
    clipOutcome := fun _ => okOutcome,
    insertOk := fun _ => true, nextId := 1, now := 5 }

def pcDemo : PersistableClip :=
  { originId := "orig", startFrame := 0, endFrame := 30, description := "a",
    videoUrl := "oss://clips/orig/x.mp4", animationUrl := none, embedding := [1, 2] }

def longDescription : String := String.mk (List.replicate 600 'a')

def rowDemo : Row :=
  { id := 1, originId := "orig", startFrame := 0, endFrame := 30,
    description := "a", videoUrl := "u", animationUrl := none,
    embedding := [1, 2], createdAt := 3, isNew := false }

def rawBadRange : RawPayload :=
  { origin_id := "orig", origin_url := some "http://h/v.mp4", fps := some 30,
    clips := [{ start_frame := 5, end_frame := 5, description := "x" }] }

/-- Environment of a request whose origin fetch succeeds (headers fine)
but whose body stream fails after `mkdtemp` created the workspace. -/
def envPipeFail : Env := { envAllOk with pipelineOk := false }

/-- Environment of a request with two clips where clip 1 completes
(trims and uploads its object) and clip 2's trim fails. -/
def envTaskFail : Env :=
  { envAllOk with
    clipOutcome := fun i =>
      if i = 0 then okOutcome
      else { trimOk := false, videoPutOk := true, animPutOk := true } }

def noPurge (evs : List Ev) : Bool := evs.all (fun e => !isPurgeEv e)

def noProcIns (evs : List Ev) : Bool := evs.all (fun e => !isProcOrInsertEv e)

def mixedRows (origin : String) (d : List Row) : Bool :=
  d.any (fun r => r.originId == origin && !r.isNew)
    && d.any (fun r => r.originId == origin && r.isNew)

/-- A request-start state in which the request's origin id already has a
persisted row and stale object-store artifacts under both prefixes. -/
def stWithOld : St :=
  { tmpDirs := [], oss := ["clips/orig/old1.mp4", "animations/orig/old1.bin"],
    db := [rowDemo], dbHist := [[rowDemo]], trace := [] }

/-! ## C3 — `persistClips` is transactional -/

theorem builtRows_length (nextId now : Nat) (clips : List PersistableClip) :
    (builtRows nextId now clips).length = clips.length := by
  induction clips generalizing nextId with
  | nil => rfl
  | cons c cs ih => simp [builtRows, ih]

theorem txInsertLoop_ok (clips : List PersistableClip)
    (insertOk : PersistableClip → Bool) (tbl : List Row) (nextId now : Nat)
    (h : clips.all insertOk = true) :
    txInsertLoop tbl clips insertOk nextId now
      = .ok (tbl ++ builtRows nextId now clips, builtRows nextId now clips) := by
  induction clips generalizing tbl nextId with
  | nil => simp [txInsertLoop, builtRows]
  | cons c cs ih =>
    simp only [List.all_cons, Bool.and_eq_true] at h
    rw [txInsertLoop, if_pos h.1,
      ih (tbl ++ [insertedRow nextId now c]) (nextId + 1) h.2]
    simp [builtRows, List.append_assoc]

theorem txInsertLoop_error (clips : List PersistableClip)
    (insertOk : PersistableClip → Bool) (tbl : List Row) (nextId now : Nat)
    (h : clips.all insertOk = false) :
    txInsertLoop tbl clips insertOk nextId now = .error () := by
  induction clips generalizing tbl nextId with
  | nil => simp at h
  | cons c cs ih =>
    by_cases hc : insertOk c = true
    · have hcs : cs.all insertOk = false := by
        simp only [List.all_cons, hc, Bool.true_and] at h
        exact h
      rw [txInsertLoop, if_pos hc,
        ih (tbl ++ [insertedRow nextId now c]) (nextId + 1) hcs]
    · rw [txInsertLoop, if_neg hc]

/-- C3: `persistClips` inserts all rows of a non-empty request inside a
single transaction — when every insert succeeds it returns one row per
clip and the table becomes the old table plus exactly those rows, and
when any insert fails the transaction rolls back in full and the table
is unchanged (zero rows added). -/
theorem c3_persistClips_transactional (tbl : List Row)
    (clips : List PersistableClip) (insertOk : PersistableClip → Bool)
    (nextId now : Nat) (hne : clips ≠ []) :
    (clips.all insertOk = true →
      persistClips tbl clips insertOk nextId now
        = (.ok (builtRows nextId now clips), tbl ++ builtRows nextId now clips))
    ∧ (clips.all insertOk = false →
      persistClips tbl clips insertOk nextId now = (.error (), tbl))
    ∧ (builtRows nextId now clips).length = clips.length := by
  have hlen : clips.length ≠ 0 := by simpa using hne
  refine ⟨fun h => ?_, fun h => ?_, builtRows_length nextId now clips⟩
  · simp [persistClips, hlen, txInsertLoop_ok clips insertOk tbl nextId now h]
  · simp [persistClips, hlen, txInsertLoop_error clips insertOk tbl nextId now h]

theorem c3_persistClips_transactional_witness :
    persistClips [] [pcDemo] (fun _ => true) 1 5
      = (.ok [insertedRow 1 5 pcDemo], [insertedRow 1 5 pcDemo]) := by
  have h := (c3_persistClips_transactional [] [pcDemo] (fun _ => true) 1 5
    (by simp)).1 (by simp)
  exact h.trans (by simp [builtRows])

/-! ## C5 — `embedDescriptions` enforces count and dimension -/

theorem checkEmbeddings_error_iff (dims : Nat) (l : List (List Rat)) :
    exceptIsError (checkEmbeddings dims l) = l.any (fun v => v.length != dims) := by
  induction l with
  | nil => rfl
  | cons e es ih =>
    by_cases he : e.length = dims
    · have hne : ¬e.length ≠ dims := by simpa using he
      have hb : (e.length != dims) = false := by simpa [bne_iff_ne] using he
      rw [checkEmbeddings, if_neg hne, List.any_cons, hb, Bool.false_or]
      cases hrec : checkEmbeddings dims es with
      | ok rest => rw [hrec] at ih; simpa [exceptIsError] using ih
      | error err => rw [hrec] at ih; simpa [exceptIsError] using ih
    · have hb : (e.length != dims) = true := by simpa [bne_iff_ne] using he
      rw [checkEmbeddings, if_pos he, List.any_cons, hb, Bool.true_or]
      rfl

theorem checkEmbeddings_ok_eq (dims : Nat) (l out : List (List Rat))
    (h : checkEmbeddings dims l = .ok out) : out = l := by
  induction l generalizing out with
  | nil =>
    rw [checkEmbeddings] at h
    injection h with h
    exact h.symm
  | cons e es ih =>
    by_cases he : e.length = dims
    · have hne : ¬e.length ≠ dims := by simpa using he
      rw [checkEmbeddings, if_neg hne] at h
      cases hrec : checkEmbeddings dims es with
      | ok rest =>
        rw [hrec] at h
        injection h with h
        rw [← h, ih rest hrec]
      | error err => rw [hrec] at h; cases h
    · rw [checkEmbeddings, if_pos he] at h; cases h

/-- C5: for a non-empty, within-batch-limit input, `embedDescriptions`
throws (a request-fatal error) exactly when the service's reply has a
different number of embeddings than there were descriptions or contains
a vector whose length differs from the configured dimensionality (and
also when the reply carries no embeddings array at all); whenever it
returns normally the result has exactly one vector per description, each
of the configured dimension. -/
theorem c5_embedDescriptions_checks (dims maxB : Nat) (descs : List String)
    (resp : List (List Rat)) (h1 : descs ≠ []) (h2 : descs.length ≤ maxB) :
    exceptIsError (embedDescriptions dims maxB descs (some resp))
        = (resp.length != descs.length || resp.any (fun v => v.length != dims))
    ∧ okShape dims descs (embedDescriptions dims maxB descs (some resp)) = true
    ∧ exceptIsError (embedDescriptions dims maxB descs none) = true := by
  have hlen : descs.length ≠ 0 := fun hh => h1 (List.length_eq_zero.mp hh)
  have hmax : ¬maxB < descs.length := by omega
  have hsome : embedDescriptions dims maxB descs (some resp)
      = (if resp.length ≠ descs.length then .error "Embedding response length mismatch"
         else checkEmbeddings dims resp) := by
    simp only [embedDescriptions]
    rw [if_neg hlen, if_neg hmax]
  have hnone : embedDescriptions dims maxB descs none
      = .error "Embedding response missing embeddings array" := by
    simp only [embedDescriptions]
    rw [if_neg hlen, if_neg hmax]
  by_cases hc : resp.length = descs.length
  · have hne : ¬resp.length ≠ descs.length := by simpa using hc
    have hb : (resp.length != descs.length) = false := by simpa [bne_iff_ne] using hc
    rw [hsome, if_neg hne, hnone, hb, Bool.false_or]
    refine ⟨checkEmbeddings_error_iff dims resp, ?_, rfl⟩
    cases hrec : checkEmbeddings dims resp with
    | error err => rfl
    | ok out =>
      have hout := checkEmbeddings_ok_eq dims resp out hrec
      have herr : exceptIsError (checkEmbeddings dims resp)
          = resp.any (fun v => v.length != dims) := checkEmbeddings_error_iff dims resp
      rw [hrec] at herr
      have hany : resp.any (fun v => v.length != dims) = false := by
        simpa [exceptIsError] using herr.symm
      have hall : resp.all (fun v => v.length == dims) = true := by
        rw [List.all_eq_true]
        intro v hv
        have hv' : ¬(v.length != dims) = true := (List.any_eq_false.mp hany) v hv
        have hv'' : v.length = dims := by simpa [bne_iff_ne] using hv'
        simpa using hv''
      simp [okShape, hout, hc, hall]
  · have hb : (resp.length != descs.length) = true := by simpa [bne_iff_ne] using hc
    rw [hsome, if_pos hc, hnone, hb, Bool.true_or]
    exact ⟨rfl, rfl, rfl⟩

theorem c5_embedDescriptions_checks_witness :
    exceptIsError (embedDescriptions 2 10 ["a", "b"] (some [[1, 2], [3, 4]])) = false
    ∧ okShape 2 ["a", "b"] (embedDescriptions 2 10 ["a", "b"] (some [[1, 2], [3, 4]])) = true := by
  have h := c5_embedDescriptions_checks 2 10 ["a", "b"] [[1, 2], [3, 4]]
    (by decide) (by decide)
  exact ⟨h.1.trans (by decide), h.2.1⟩

/-! ## C7 — animation slice bounds -/

/-- C7: when an animation source is present and the steps before the
slice succeed, the slice call of `processClip` receives exactly the
inclusive frame range from `start_frame` to
`max start_frame (end_frame - 1)` — the upper bound clamped to at least
the start frame — and a one-frame clip (`end_frame = start_frame + 1`)
yields the single-record range from `start_frame` to `start_frame`. -/
theorem c7_animation_slice_bounds (originId assetId : String) (c : RawClip)
    (emb : List Rat) (oc : ClipOutcome)
    (h1 : oc.trimOk = true) (h2 : oc.videoPutOk = true) :
    (processClip originId assetId c emb true oc).events
      = [Ev.trimEv assetId,
         Ev.ossPut ("clips/" ++ originId ++ "/" ++ assetId ++ ".mp4"),
         Ev.sliceAnim c.start_frame (max c.start_frame (c.end_frame - 1)),
         Ev.ossPut ("animations/" ++ originId ++ "/" ++ assetId ++ ".bin")]
    ∧ (c.end_frame = c.start_frame + 1 →
        max c.start_frame (c.end_frame - 1) = c.start_frame) := by
  constructor
  · cases hA : oc.animPutOk <;>
      simp [processClip, h1, h2, hA, animationLastFrame]
  · intro h
    have he : c.end_frame - 1 = c.start_frame := by omega
    rw [he, max_self]

theorem c7_animation_slice_bounds_witness :
    (processClip "o" "a" { start_frame := 4, end_frame := 5, description := "d" }
        [1] true okOutcome).events
      = [Ev.trimEv "a", Ev.ossPut "clips/o/a.mp4", Ev.sliceAnim 4 4,
         Ev.ossPut "animations/o/a.bin"] := by
  have h := c7_animation_slice_bounds "o" "a"
    { start_frame := 4, end_frame := 5, description := "d" } [1] okOutcome rfl rfl
  exact h.1.trans (by decide)

/-! ## C8 — description length bounds (512, not 1024) -/

set_option maxRecDepth 4000 in
/-- C8 counterexample: a description of 600 characters lies within the
claimed 1-1024 window, yet `clipInputSchema` rejects the clip (the
schema's bound is `max(512)`). -/
theorem c8_counterexample :
    clipInputCheck { start_frame := 0, end_frame := 1, description := longDescription }
        = false
    ∧ 1 ≤ longDescription.length ∧ longDescription.length ≤ 1024 := by
  decide

/-- C8 (amended): a `ClipSpec` description is accepted exactly when it
is non-empty text of at most 512 characters — every description of
length 1 through 512 passes validation (with valid frame bounds), and
empty or longer descriptions are rejected. -/
theorem c8_description_bounds (c : RawClip) (h0 : 0 ≤ c.start_frame)
    (h1 : 1 ≤ c.end_frame) (h2 : c.start_frame < c.end_frame) :
    clipInputCheck c = true
      ↔ (1 ≤ c.description.length ∧ c.description.length ≤ 512) := by
  simp [clipInputCheck, h0, h1, h2]

theorem c8_description_bounds_witness :
    clipInputCheck { start_frame := 0, end_frame := 1, description := "hello" } = true := by
  exact (c8_description_bounds
    { start_frame := 0, end_frame := 1, description := "hello" }
    (by decide) (by decide) (by decide)).mpr (by decide)

/-! ## C9 — paginated `GET /api/clips` listing -/

/-- C9: the listing route returns the clips array together with a
pagination object carrying `total` (the full table size), `limit`
(defaulting to 10 and capped at 100), `offset`, and `hasMore`; at most
`limit` clips are returned. -/
theorem c9_get_clips_route (tbl : List Row) (limitParam offsetParam : Option Nat) :
    (getClipsRoute tbl limitParam offsetParam).pagination.limit
        = min (limitParam.getD 10) 100
    ∧ (getClipsRoute tbl limitParam offsetParam).pagination.limit ≤ 100
    ∧ (limitParam = none →
        (getClipsRoute tbl limitParam offsetParam).pagination.limit = 10)
    ∧ (getClipsRoute tbl limitParam offsetParam).pagination.offset
        = offsetParam.getD 0
    ∧ (getClipsRoute tbl limitParam offsetParam).pagination.total = tbl.length
    ∧ (getClipsRoute tbl limitParam offsetParam).clips.length
        ≤ (getClipsRoute tbl limitParam offsetParam).pagination.limit
    ∧ (getClipsRoute tbl limitParam offsetParam).pagination.hasMore
        = decide ((getClipsRoute tbl limitParam offsetParam).pagination.offset
            + (getClipsRoute tbl limitParam offsetParam).clips.length
            < (getClipsRoute tbl limitParam offsetParam).pagination.total) := by
  refine ⟨rfl, min_le_right _ _, ?_, rfl, ?_, ?_, rfl⟩
  · intro h
    subst h
    rfl
  · rfl
  · simp only [getClipsRoute, getAllClips, List.length_take]
    exact min_le_left _ _

theorem c9_get_clips_route_witness :
    (getClipsRoute [rowDemo] none none).pagination.limit = 10
    ∧ (getClipsRoute [rowDemo] none none).pagination.total = 1 := by
  have h := c9_get_clips_route [rowDemo] none none
  exact ⟨h.2.2.1 rfl, h.2.2.2.2.1⟩

/-! ## C10 — staged upload paths stay inside the workspace -/

theorem basename_no_slash (s : String) : ∀ ch ∈ (basename s).toList, ch ≠ '/' := by
  intro ch hch
  have hrw : (basename s).toList
      = ((s.toList.reverse.dropWhile (· == '/')).takeWhile (· != '/')).reverse := rfl
  rw [hrw, List.mem_reverse] at hch
  have hp := List.mem_takeWhile_imp hch
  simpa [bne_iff_ne] using hp

/-- The name `writeUploadedAsset` chooses is either the fallback or a
non-empty `basename` of the client name. -/
theorem writeUploadedAssetName_cases (name fallbackName : String) :
    writeUploadedAssetName name fallbackName = fallbackName
    ∨ (writeUploadedAssetName name fallbackName = basename name
        ∧ basename name ≠ "") := by
  unfold writeUploadedAssetName
  by_cases ht : trimIsEmpty name
  · simp only [ht, Bool.not_true, Bool.false_eq_true, if_false]
    by_cases hb : fallbackName = "" <;> simp [hb]
  · have ht' : (!trimIsEmpty name) = true := by simp [ht]
    simp only [ht', if_true]
    by_cases hb : basename name = "" <;> simp [hb]

/-- C10 (amended): `writeUploadedAsset` always reduces the
client-supplied name to a single path segment (no `'/'` survives, so a
name such as `"../../etc/passwd"` cannot traverse directories), and it
substitutes the fallback name when the client name is empty or
whitespace; whenever the resulting segment is neither `"."` nor `".."`
the staged destination path is a direct child of the workspace
directory.  (The literal names `"."` and `".."` are *not* neutralised —
see the counterexample — which is the one exception the original claim
overlooks.) -/
theorem c10_staged_path_single_segment (tempDir : List String)
    (name fallbackName : String) (hf0 : fallbackName ≠ "")
    (hfs : ∀ ch ∈ fallbackName.toList, ch ≠ '/') :
    (∀ ch ∈ (writeUploadedAssetName name fallbackName).toList, ch ≠ '/')
    ∧ writeUploadedAssetName name fallbackName ≠ ""
    ∧ (trimIsEmpty name = true → writeUploadedAssetName name fallbackName = fallbackName)
    ∧ (writeUploadedAssetName name fallbackName ≠ "." →
        writeUploadedAssetName name fallbackName ≠ ".." →
        stagedAssetPath tempDir name fallbackName
            = tempDir ++ [writeUploadedAssetName name fallbackName]
        ∧ isDirectChild tempDir (stagedAssetPath tempDir name fallbackName) = true) := by
  have hcases := writeUploadedAssetName_cases name fallbackName
  have hslash : ∀ ch ∈ (writeUploadedAssetName name fallbackName).toList, ch ≠ '/' := by
    rcases hcases with h | h
    · rw [h]; exact hfs
    · rw [h.1]; exact basename_no_slash name
  have hne : writeUploadedAssetName name fallbackName ≠ "" := by
    rcases hcases with h | h
    · rw [h]; exact hf0
    · rw [h.1]; exact h.2
  refine ⟨hslash, hne, ?_, ?_⟩
  · intro ht
    simp [writeUploadedAssetName, ht, hf0]
  · intro hd1 hd2
    have hjoin : stagedAssetPath tempDir name fallbackName
        = tempDir ++ [writeUploadedAssetName name fallbackName] := by
      unfold stagedAssetPath joinSegment
      rw [if_neg (by tauto), if_neg hd2]
    refine ⟨hjoin, ?_⟩
    rw [hjoin]
    simp [isDirectChild, List.dropLast_concat, List.length_append]

theorem c10_staged_path_single_segment_witness :
    stagedAssetPath ["tmp", "ws"] "../../etc/passwd" "origin.mp4"
        = ["tmp", "ws", "passwd"]
    ∧ isDirectChild ["tmp", "ws"]
        (stagedAssetPath ["tmp", "ws"] "../../etc/passwd" "origin.mp4") = true := by
  have h := c10_staged_path_single_segment ["tmp", "ws"] "../../etc/passwd"
    "origin.mp4" (by decide) (by decide)
  have h4 := h.2.2.2 (by decide) (by decide)
  exact ⟨h4.1.trans (by decide), h4.2⟩

/-- C10 counterexample: the client name `".."` survives both the
`basename` reduction and the fallback substitution, and `path.join`
normalises it away — the staged destination is the workspace's *parent*
directory, not a direct child of the workspace. -/
theorem c10_counterexample :
    stagedAssetPath ["tmp", "bucket-x"] ".." "origin.mp4" = ["tmp"]
    ∧ isDirectChild ["tmp", "bucket-x"]
        (stagedAssetPath ["tmp", "bucket-x"] ".." "origin.mp4") = false := by
  decide

/-! ## C6 — invalid frame ranges are rejected with 400 before any I/O -/

/-- C6: a request containing a clip with `end_frame ≤ start_frame` fails
`clipInputSchema`'s refinement, so the handler answers 400 with the
request state completely untouched — no workspace creation, download,
embedding call, upload or database access happens (the final state,
including its event trace, equals the initial one). -/
theorem c6_invalid_range_rejected (cfg : Config) (env : Env) (raw : RawPayload)
    (st : St) (h : ∃ c ∈ raw.clips, c.end_frame ≤ c.start_frame) :
    handleClipsJson cfg env raw st = (400, st) := by
  obtain ⟨c, hc, hle⟩ := h
  have hnlt : ¬c.start_frame < c.end_frame := not_lt.mpr hle
  have hcheck : clipInputCheck c = false := by
    simp [clipInputCheck, hnlt]
  have hall : raw.clips.all clipInputCheck = false := by
    cases hres : raw.clips.all clipInputCheck with
    | false => rfl
    | true => exact absurd (List.all_eq_true.mp hres c hc) (by simp [hcheck])
  have hparse : parseUploadPayload cfg raw = .error () := by
    unfold parseUploadPayload
    rw [hall]
    simp
  simp [handleClipsJson, hparse]

theorem c6_invalid_range_rejected_witness :
    handleClipsJson cfgDemo envAllOk rawBadRange stEmpty = (400, stEmpty) :=
  c6_invalid_range_rejected cfgDemo envAllOk rawBadRange stEmpty (by decide)

/-! ## C2 — the workspace directory leaks when the download stream fails -/

/-- C2 evaluated at the failing input: the fetch succeeds, `mkdtemp`
creates the workspace directory (it appears in the trace), the streaming
`pipeline` then throws inside `downloadOriginVideo`, and the handler
answers 502 — but the directory is still live at the end of the request
and no recursive removal (`rmTree`) ever happened, because
`downloadOriginVideo` throws before returning the directory to the
handler and its catch block cannot name it. -/
theorem c2_workspace_leak :
    (handleClipsJson cfgDemo envPipeFail rawDemo stEmpty).1 = 502
    ∧ Ev.mkdtempEv 7 ∈ (handleClipsJson cfgDemo envPipeFail rawDemo stEmpty).2.trace
    ∧ 7 ∈ (handleClipsJson cfgDemo envPipeFail rawDemo stEmpty).2.tmpDirs
    ∧ (handleClipsJson cfgDemo envPipeFail rawDemo stEmpty).2.trace.all
        (fun e => e != Ev.rmTree 7) = true := by
  decide

/-! ## C1 — rollback is never invoked when a clip task fails -/

/-- C1 evaluated at the failing input: clip 1 of 2 uploads
`clips/orig/asset-0.mp4` and clip 2 fails, so `Promise.all` rejects and
the request fails with 500 and zero persisted rows — but the catch
block's `processedClips` is still the initial `[]` (the assignment only
happens when `Promise.all` resolves), so `discardUploadedObjects` is
never called: no `ossDelete` appears in the trace and clip 1's uploaded
object is still in the bucket at the end of the request. -/
theorem c1_rollback_skipped :
    (handleClipsJson cfgDemo envTaskFail rawDemo stEmpty).1 = 500
    ∧ (handleClipsJson cfgDemo envTaskFail rawDemo stEmpty).2.db = []
    ∧ Ev.ossPut "clips/orig/asset-0.mp4"
        ∈ (handleClipsJson cfgDemo envTaskFail rawDemo stEmpty).2.trace
    ∧ "clips/orig/asset-0.mp4"
        ∈ (handleClipsJson cfgDemo envTaskFail rawDemo stEmpty).2.oss
    ∧ (handleClipsJson cfgDemo envTaskFail rawDemo stEmpty).2.trace.all
        (fun e => !isOssDeleteEv e) = true := by
  decide

/-! ## C4 — the purge of pre-existing records completes before processing

Helper classifications: `noPurge evs` says no §4.5-step-1 purge event
occurs in `evs`; `noProcIns evs` says no clip-processing or row-insert
event occurs; `mixedRows origin d` says the table snapshot `d` holds
both an old (pre-request) and a new (request-inserted) row for
`origin`. -/

theorem noPurge_append (xs ys : List Ev) :
    noPurge (xs ++ ys) = (noPurge xs && noPurge ys) := by
  simp [noPurge, List.all_append]

theorem noProcIns_append (xs ys : List Ev) :
    noProcIns (xs ++ ys) = (noProcIns xs && noProcIns ys) := by
  simp [noProcIns, List.all_append]

theorem mixedRows_false_of_all_new (origin : String) (d : List Row)
    (h : ∀ r ∈ d, r.originId = origin → r.isNew = true) :
    mixedRows origin d = false := by
  have h1 : d.any (fun r => r.originId == origin && !r.isNew) = false := by
    rw [List.any_eq_false]
    intro r hr
    simp only [Bool.and_eq_true, beq_iff_eq, Bool.not_eq_true', not_and]
    intro ho
    simp [h r hr ho]
  simp [mixedRows, h1]

theorem mixedRows_false_of_all_old (origin : String) (d : List Row)
    (h : ∀ r ∈ d, r.isNew = false) :
    mixedRows origin d = false := by
  have h2 : d.any (fun r => r.originId == origin && r.isNew) = false := by
    rw [List.any_eq_false]
    intro r hr
    simp [h r hr]
  simp [mixedRows, h2]

theorem processClip_no_purge (o a : String) (c : RawClip) (emb : List Rat)
    (ha : Bool) (oc : ClipOutcome) :
    noPurge (processClip o a c emb ha oc).events = true := by
  rcases oc with ⟨t, v, ap⟩
  cases t <;> cases v <;> cases ap <;> cases ha <;>
    simp [processClip, noPurge, isPurgeEv, animationLastFrame]

theorem runClipTasks_no_purge (env : Env) (o : String) (clips : List RawClip)
    (embeddings : List (List Rat)) (ha : Bool) :
    noPurge ((runClipTasks env o clips embeddings ha).flatMap (fun r => r.events))
      = true := by
  rw [noPurge, List.all_eq_true]
  intro e he
  rw [List.mem_flatMap] at he
  obtain ⟨tr, htr, he⟩ := he
  rw [runClipTasks, List.mem_map] at htr
  obtain ⟨ic, _, htr⟩ := htr
  rcases hemb : embeddings[ic.1]? with _ | emb <;> rw [hemb] at htr
  · rw [← htr] at he
    simp at he
  · rw [← htr] at he
    have := processClip_no_purge o (env.assetId ic.1) ic.2 emb ha (env.clipOutcome ic.1)
    rw [noPurge, List.all_eq_true] at this
    exact this e he

theorem insertAttemptEvents_no_purge (clips : List PersistableClip)
    (insertOk : PersistableClip → Bool) :
    noPurge (insertAttemptEvents clips insertOk) = true := by
  rw [noPurge, List.all_eq_true]
  intro e he
  rw [insertAttemptEvents] at he
  obtain ⟨c, _, rfl⟩ := List.mem_map.mp he
  rfl

theorem discard_no_purge (clips : List ProcessedClip) (oss : List String) :
    noPurge (discardUploadedObjects clips oss).2 = true := by
  rw [noPurge, List.all_eq_true]
  intro e he
  simp only [discardUploadedObjects] at he
  obtain ⟨k, _, rfl⟩ := List.mem_map.mp he
  rfl

theorem txInsertLoop_ok_shape (clips : List PersistableClip)
    (insertOk : PersistableClip → Bool) (tbl : List Row) (nextId now : Nat)
    (tbl' rows : List Row)
    (h : txInsertLoop tbl clips insertOk nextId now = .ok (tbl', rows)) :
    tbl' = tbl ++ rows ∧ ∀ r ∈ rows, r.isNew = true := by
  induction clips generalizing tbl nextId tbl' rows with
  | nil =>
    rw [txInsertLoop] at h
    injection h with h
    injection h with h1 h2
    subst h1; subst h2
    simp
  | cons c cs ih =>
    by_cases hc : insertOk c = true
    · rw [txInsertLoop, if_pos hc] at h
      cases ht : txInsertLoop (tbl ++ [insertedRow nextId now c]) cs insertOk
          (nextId + 1) now with
      | ok pair =>
        obtain ⟨t2, rs⟩ := pair
        rw [ht] at h
        injection h with h
        injection h with h1 h2
        subst h1; subst h2
        obtain ⟨hih1, hih2⟩ := ih (tbl ++ [insertedRow nextId now c]) (nextId + 1) t2 rs ht
        constructor
        · rw [hih1]; simp [List.append_assoc]
        · intro r hr
          rcases List.mem_cons.mp hr with rfl | hr
          · rfl
          · exact hih2 r hr
      | error e => rw [ht] at h; cases h
    · rw [txInsertLoop, if_neg hc] at h; cases h

theorem persistClips_shape (tbl : List Row) (clips : List PersistableClip)
    (insertOk : PersistableClip → Bool) (nextId now : Nat) :
    (∃ rows, persistClips tbl clips insertOk nextId now = (.ok rows, tbl ++ rows)
        ∧ ∀ r ∈ rows, r.isNew = true)
    ∨ persistClips tbl clips insertOk nextId now = (.error (), tbl) := by
  by_cases h0 : clips.length = 0
  · left
    exact ⟨[], by rw [persistClips, if_pos h0]; simp, by simp⟩
  · rw [persistClips, if_neg h0]
    cases ht : txInsertLoop tbl clips insertOk nextId now with
    | ok pair =>
      obtain ⟨tbl', rows⟩ := pair
      obtain ⟨hsh1, hsh2⟩ := txInsertLoop_ok_shape clips insertOk tbl nextId now tbl' rows ht
      left
      exact ⟨rows, by rw [hsh1], hsh2⟩
    | error e => right; rfl

/-- The processing-and-persistence phase only appends non-purge events
to the trace, and at most commits one new database state, in which every
row of the request's origin is a freshly inserted one (given that this
already held of the table it started from). -/
theorem processAndPersistPhase_spec (env : Env) (payload : UploadPayload)
    (st : St) (workDir : Nat) (embeddings : List (List Rat))
    (hdb : ∀ r ∈ st.db, r.originId = payload.origin_id → r.isNew = true) :
    (∃ suffix, (processAndPersistPhase env payload st workDir embeddings).2.trace
        = st.trace ++ suffix ∧ noPurge suffix = true)
    ∧ ∀ d ∈ (processAndPersistPhase env payload st workDir embeddings).2.dbHist,
        d ∈ st.dbHist ∨ ∀ r ∈ d, r.originId = payload.origin_id → r.isNew = true := by
  rw [processAndPersistPhase]
  set runs := runClipTasks env payload.origin_id payload.clips embeddings false with hrunsdef
  have hruns : noPurge (runs.flatMap (fun r => r.events)) = true := by
    rw [hrunsdef]
    exact runClipTasks_no_purge env payload.origin_id payload.clips embeddings false
  have hrm : ∀ d : Nat, noPurge [Ev.rmTree d] = true := by
    intro d; rfl
  cases hm : runs.mapM (fun r => r.result) with
  | none =>
    simp only [hm]
    constructor
    · refine ⟨runs.flatMap (fun r => r.events) ++ [Ev.rmTree workDir], ?_, ?_⟩
      · simp [cleanupTempDir, List.append_assoc]
      · rw [noPurge_append, hruns, hrm]
        rfl
    · intro d hd
      exact Or.inl hd
  | some processedClips =>
    simp only [hm, addEvs]
    set persistable := processedClips.map (fun pc =>
      ({ originId := pc.originId, startFrame := pc.startFrame,
         endFrame := pc.endFrame, description := pc.description,
         videoUrl := pc.videoUrl, animationUrl := pc.animationUrl,
         embedding := pc.embedding } : PersistableClip)) with hperdef
    rcases persistClips_shape st.db persistable env.insertOk env.nextId env.now
      with ⟨rows, hok, hnew⟩ | hsh
    · simp only [hok]
      constructor
      · refine ⟨runs.flatMap (fun r => r.events)
            ++ insertAttemptEvents persistable env.insertOk
            ++ [Ev.rmTree workDir], ?_, ?_⟩
        · simp [cleanupTempDir, setDb, List.append_assoc]
        · rw [noPurge_append, noPurge_append, hruns,
            insertAttemptEvents_no_purge, hrm]
          rfl
      · intro d hd
        simp only [cleanupTempDir, setDb] at hd
        rcases List.mem_append.mp hd with hd | hd
        · exact Or.inl hd
        · right
          rcases List.mem_singleton.mp hd with rfl
          intro r hr ho
          rcases List.mem_append.mp hr with hr | hr
          · exact hdb r hr ho
          · exact hnew r hr
    · simp only [hsh]
      by_cases hlen : processedClips.length > 0
      · simp only [if_pos hlen]
        constructor
        · refine ⟨runs.flatMap (fun r => r.events)
              ++ insertAttemptEvents persistable env.insertOk
              ++ (discardUploadedObjects processedClips
                    (st.oss ++ runs.flatMap (fun r => r.uploadedKeys))).2
              ++ [Ev.rmTree workDir], ?_, ?_⟩
          · simp [cleanupTempDir, addEvs, List.append_assoc]
          · rw [noPurge_append, noPurge_append, noPurge_append, hruns,
              insertAttemptEvents_no_purge, discard_no_purge, hrm]
            rfl
        · intro d hd
          exact Or.inl hd
      · simp only [if_neg hlen]
        constructor
        · refine ⟨runs.flatMap (fun r => r.events)
              ++ insertAttemptEvents persistable env.insertOk
              ++ [Ev.rmTree workDir], ?_, ?_⟩
          · simp [cleanupTempDir, List.append_assoc]
          · rw [noPurge_append, noPurge_append, hruns,
              insertAttemptEvents_no_purge, hrm]
            rfl
        · intro d hd
          exact Or.inl hd

theorem purgePrefixEvents_no_procIns (oss : List String) (pfx : String) :
    noProcIns (purgePrefixEvents oss pfx) = true := by
  rw [noProcIns, List.all_eq_true]
  intro e he
  rw [purgePrefixEvents] at he
  split at he
  · rcases List.mem_singleton.mp he with rfl
    rfl
  · rw [List.mem_flatMap] at he
    obtain ⟨pg, _, he⟩ := he
    rcases List.mem_cons.mp he with rfl | he
    · rfl
    · rcases List.mem_singleton.mp he with rfl
      rfl

theorem deleteObjectsByOriginId_no_procIns (oss : List String) (originId : String) :
    noProcIns (deleteObjectsByOriginId oss originId).2.1 = true := by
  have h : (deleteObjectsByOriginId oss originId).2.1
      = purgePrefixEvents oss ("clips/" ++ originId ++ "/")
        ++ purgePrefixEvents oss ("animations/" ++ originId ++ "/") := rfl
  rw [h, noProcIns_append, purgePrefixEvents_no_procIns, purgePrefixEvents_no_procIns]
  rfl

theorem getClipsByOriginId_len_zero (tbl : List Row) (origin : String)
    (h : ¬(getClipsByOriginId tbl origin).length > 0) :
    ∀ r ∈ tbl, r.originId = origin → r.isNew = true := by
  intro r hr ho
  have hnil : getClipsByOriginId tbl origin = [] := by
    cases hg : getClipsByOriginId tbl origin with
    | nil => rfl
    | cons x xs => rw [hg] at h; simp at h
  have : r ∈ getClipsByOriginId tbl origin := by
    rw [getClipsByOriginId, List.mem_filter]
    exact ⟨hr, by simp [ho]⟩
  rw [hnil] at this
  cases this

theorem deleteClipsByOriginId_no_origin (tbl : List Row) (origin : String) :
    ∀ r ∈ (deleteClipsByOriginId tbl origin).2, r.originId = origin → r.isNew = true := by
  intro r hr ho
  rw [deleteClipsByOriginId] at hr
  have := (List.mem_filter.mp hr).2
  rw [ho] at this
  simp at this

/-- The cleanup-old-records block followed by the processing phase: the
trace extends by a first segment free of processing/insert events (the
lookup and the purge) followed by a segment free of purge events (the
processing), and every database state it commits either predates the
phase or contains only request-inserted rows for the request's origin. -/
theorem cleanupOldRecordsPhase_spec (env : Env) (payload : UploadPayload)
    (st : St) (workDir : Nat) (embeddings : List (List Rat)) :
    (∃ A B, (cleanupOldRecordsPhase env payload st workDir embeddings).2.trace
        = st.trace ++ A ++ B ∧ noProcIns A = true ∧ noPurge B = true)
    ∧ ∀ d ∈ (cleanupOldRecordsPhase env payload st workDir embeddings).2.dbHist,
        d ∈ st.dbHist ∨ ∀ r ∈ d, r.originId = payload.origin_id → r.isNew = true := by
  rw [cleanupOldRecordsPhase]
  cases hge : env.getExistingOk with
  | false =>
    simp only [hge, Bool.not_false, if_true]
    constructor
    · refine ⟨[Ev.dbGetByOrigin payload.origin_id, Ev.rmTree workDir], [], ?_, rfl, rfl⟩
      simp [cleanupTempDir, addEvs, List.append_assoc]
    · intro d hd
      exact Or.inl hd
  | true =>
    simp only [hge, Bool.not_true, Bool.false_eq_true, if_false]
    by_cases hex : (getClipsByOriginId st.db payload.origin_id).length > 0
    · simp only [if_pos hex]
      cases hos : env.ossPurgeOk with
      | false =>
        simp only [hos, Bool.not_false, if_true]
        constructor
        · refine ⟨[Ev.dbGetByOrigin payload.origin_id,
              Ev.ossList ("clips/" ++ payload.origin_id ++ "/"),
              Ev.rmTree workDir], [], ?_, rfl, rfl⟩
          simp [cleanupTempDir, addEvs, List.append_assoc]
        · intro d hd
          exact Or.inl hd
      | true =>
        simp only [hos, Bool.not_true, Bool.false_eq_true, if_false, addEvs]
        cases hrd : env.rowDeleteOk with
        | false =>
          simp only [hrd, Bool.not_false, if_true]
          constructor
          · refine ⟨[Ev.dbGetByOrigin payload.origin_id]
                ++ (deleteObjectsByOriginId st.oss payload.origin_id).2.1
                ++ [Ev.dbDeleteByOrigin payload.origin_id, Ev.rmTree workDir],
              [], ?_, ?_, rfl⟩
            · simp [cleanupTempDir, List.append_assoc]
            · rw [noProcIns_append, noProcIns_append,
                deleteObjectsByOriginId_no_procIns]
              rfl
          · intro d hd
            exact Or.inl hd
        | true =>
          simp only [hrd, Bool.not_true, Bool.false_eq_true, if_false, setDb]
          have hspec := processAndPersistPhase_spec env payload
            { tmpDirs := st.tmpDirs,
              oss := (deleteObjectsByOriginId st.oss payload.origin_id).2.2,
              db := (deleteClipsByOriginId st.db payload.origin_id).2,
              dbHist := st.dbHist ++ [(deleteClipsByOriginId st.db payload.origin_id).2],
              trace := ((st.trace ++ [Ev.dbGetByOrigin payload.origin_id])
                  ++ (deleteObjectsByOriginId st.oss payload.origin_id).2.1)
                ++ [Ev.dbDeleteByOrigin payload.origin_id] }
            workDir embeddings
            (deleteClipsByOriginId_no_origin st.db payload.origin_id)
          constructor
          · obtain ⟨suffix, hsuf, hnop⟩ := hspec.1
            refine ⟨[Ev.dbGetByOrigin payload.origin_id]
                ++ (deleteObjectsByOriginId st.oss payload.origin_id).2.1
                ++ [Ev.dbDeleteByOrigin payload.origin_id],
              suffix, ?_, ?_, hnop⟩
            · rw [hsuf]
              simp [List.append_assoc]
            · rw [noProcIns_append, noProcIns_append,
                deleteObjectsByOriginId_no_procIns]
              rfl
          · intro d hd
            rcases hspec.2 d hd with hmem | hnew
            · rcases List.mem_append.mp hmem with hmem | hmem
              · exact Or.inl hmem
              · rcases List.mem_singleton.mp hmem with rfl
                exact Or.inr (deleteClipsByOriginId_no_origin st.db payload.origin_id)
            · exact Or.inr hnew
    · simp only [if_neg hex, addEvs]
      have hspec := processAndPersistPhase_spec env payload
        { tmpDirs := st.tmpDirs, oss := st.oss, db := st.db,
          dbHist := st.dbHist,
          trace := st.trace ++ [Ev.dbGetByOrigin payload.origin_id] }
        workDir embeddings
        (getClipsByOriginId_len_zero st.db payload.origin_id hex)
      constructor
      · obtain ⟨suffix, hsuf, hnop⟩ := hspec.1
        refine ⟨[Ev.dbGetByOrigin payload.origin_id], suffix, ?_, rfl, hnop⟩
        rw [hsuf]
      · intro d hd
        rcases hspec.2 d hd with hmem | hnew
        · exact Or.inl hmem
        · exact Or.inr hnew

theorem parseUploadPayload_origin (cfg : Config) (raw : RawPayload)
    (payload : UploadPayload) (h : parseUploadPayload cfg raw = .ok payload) :
    payload.origin_id = raw.origin_id := by
  rw [parseUploadPayload] at h
  split at h
  · injection h with h
    rw [← h]
  · cases h

theorem downloadOriginVideo_events_cases (cfg : Config) (env : Env)
    (url : String) (tmp : List Nat) :
    (downloadOriginVideo cfg env url tmp).2.2 = [Ev.downloadEv url]
    ∨ (downloadOriginVideo cfg env url tmp).2.2
        = [Ev.downloadEv url, Ev.mkdtempEv env.freshDir] := by
  rw [downloadOriginVideo]
  dsimp only
  repeat' split
  all_goals first | exact Or.inl rfl | exact Or.inr rfl

theorem downloadOriginVideo_events (cfg : Config) (env : Env) (url : String)
    (tmp : List Nat) :
    noProcIns (downloadOriginVideo cfg env url tmp).2.2 = true
    ∧ noPurge (downloadOriginVideo cfg env url tmp).2.2 = true := by
  rcases downloadOriginVideo_events_cases cfg env url tmp with h | h <;>
    rw [h] <;> exact ⟨rfl, rfl⟩

/-- C4: over every environment (every combination of external outcomes)
and every request-start state, (a) the handler's event trace splits into
a first part containing no clip-processing and no row-insert event
followed by a second part containing no purge event — so the purge of
pre-existing records (object-store prefix deletions and the database
row deletion) completes fully before any new clip is processed and
before any new row insert begins — and (b) no database state the request
ever commits holds both a pre-existing row and a request-inserted row
for the request's origin id. -/
theorem c4_purge_completes_before_processing (cfg : Config) (env : Env)
    (raw : RawPayload) (st0 : St) (h1 : st0.trace = [])
    (h2 : st0.dbHist = [st0.db]) (h3 : ∀ r ∈ st0.db, r.isNew = false) :
    (∃ A B, (handleClipsJson cfg env raw st0).2.trace = A ++ B
        ∧ noProcIns A = true ∧ noPurge B = true)
    ∧ ∀ d ∈ (handleClipsJson cfg env raw st0).2.dbHist,
        mixedRows raw.origin_id d = false := by
  have hmold : mixedRows raw.origin_id st0.db = false :=
    mixedRows_false_of_all_old raw.origin_id st0.db h3
  have hdl := downloadOriginVideo_events cfg env
  rw [handleClipsJson]
  cases hp : parseUploadPayload cfg raw with
  | error e =>
    simp only [hp]
    constructor
    · exact ⟨[], [], by simp [h1], rfl, rfl⟩
    · intro d hd
      rw [h2] at hd
      rcases List.mem_singleton.mp hd with rfl
      exact hmold
  | ok payload =>
    simp only [hp]
    have hor := parseUploadPayload_origin cfg raw payload hp
    cases hurl : payload.origin_url with
    | none =>
      simp only [hurl]
      constructor
      · exact ⟨[], [], by simp [h1], rfl, rfl⟩
      · intro d hd
        rw [h2] at hd
        rcases List.mem_singleton.mp hd with rfl
        exact hmold
    | some url =>
      simp only [hurl, addEvs]
      cases hdl1 : (downloadOriginVideo cfg env url st0.tmpDirs).1 with
      | error e =>
        simp only [hdl1]
        constructor
        · refine ⟨[Ev.embedCall] ++ (downloadOriginVideo cfg env url st0.tmpDirs).2.2,
            [], ?_, ?_, rfl⟩
          · simp [h1, List.append_assoc]
          · rw [noProcIns_append, (hdl url st0.tmpDirs).1]
            rfl
        · intro d hd
          rw [h2] at hd
          rcases List.mem_singleton.mp hd with rfl
          exact hmold
      | ok wdfp =>
        simp only [hdl1]
        cases hemb : embedDescriptions cfg.dims cfg.maxBatch
            (payload.clips.map (fun c => c.description)) env.embedResp with
        | error e =>
          simp only [hemb]
          constructor
          · refine ⟨[Ev.embedCall] ++ (downloadOriginVideo cfg env url st0.tmpDirs).2.2
                ++ [Ev.rmTree wdfp.1], [], ?_, ?_, rfl⟩
            · simp [cleanupTempDir, h1, List.append_assoc]
            · rw [noProcIns_append, noProcIns_append, (hdl url st0.tmpDirs).1]
              rfl
          · intro d hd
            rw [h2] at hd
            rcases List.mem_singleton.mp hd with rfl
            exact hmold
        | ok embeddings =>
          simp only [hemb]
          have hspec := cleanupOldRecordsPhase_spec env payload
            { tmpDirs := (downloadOriginVideo cfg env url st0.tmpDirs).2.1,
              oss := st0.oss, db := st0.db, dbHist := st0.dbHist,
              trace := st0.trace ++ [Ev.embedCall]
                ++ (downloadOriginVideo cfg env url st0.tmpDirs).2.2 }
            wdfp.1 embeddings
          constructor
          · obtain ⟨A, B, htr, hA, hB⟩ := hspec.1
            refine ⟨[Ev.embedCall] ++ (downloadOriginVideo cfg env url st0.tmpDirs).2.2
                ++ A, B, ?_, ?_, hB⟩
            · rw [htr]
              simp [h1, List.append_assoc]
            · rw [noProcIns_append, noProcIns_append, (hdl url st0.tmpDirs).1, hA]
              rfl
          · intro d hd
            rcases hspec.2 d hd with hmem | hnew
            · rw [h2] at hmem
              rcases List.mem_singleton.mp hmem with rfl
              exact hmold
            · rw [← hor]
              exact mixedRows_false_of_all_new payload.origin_id d hnew

theorem c4_purge_completes_before_processing_witness :
    (∃ A B, (handleClipsJson cfgDemo envAllOk rawDemo stWithOld).2.trace = A ++ B
        ∧ noProcIns A = true ∧ noPurge B = true)
    ∧ ∀ d ∈ (handleClipsJson cfgDemo envAllOk rawDemo stWithOld).2.dbHist,
        mixedRows rawDemo.origin_id d = false :=
  c4_purge_completes_before_processing cfgDemo envAllOk rawDemo stWithOld
    rfl rfl (by decide)

end Bucket

